import Mathlib

/-!
Shallow embedding of the Repository-Analyzer codebase (src/agent.py,
src/processor.py, src/github_fetcher.py, src/tools.py) together with
theorems settling the frozen claims about it.

Python strings are modelled as Lean `String`s (or `List Char` where the
code works character-by-character); Python ints that are provably
non-negative in context are `Nat`, signed counters are `Int`; fallible
steps are modelled with `Option`/`Except` or explicit success flags.
-/

set_option maxRecDepth 8000

namespace RepoAnalyzer

/-! ## src/agent.py — RepoAgent

The agent keeps a conversation as a list of message dicts.  Only the
`role` and `content` keys are ever read by `_count_tokens` and
`_trim_conversation_history`; tool-related keys are carried along
unchanged (`toolCallId`, `toolCalls`) so that the loop embedding can
append the same records the Python code appends.  A message `content`
is a string, a list of items, or `None`. -/

/-- One element of a list-valued message content.  `textItem` carries the
value of the item's `"text"` key (`item.get("text", "")`); `toolCallItem`
carries the Python `str(item)` rendering that `_count_tokens` measures;
`otherItem` is any non-dict item or dict of another type, which
contributes nothing. -/
inductive ContentItem where
  | textItem (s : String)
  | toolCallItem (rendered : String)
  | otherItem
deriving DecidableEq, Repr

/-- A message's `content` value: a string, a list of items, or `None`. -/
inductive MsgContent where
  | str (s : String)
  | items (l : List ContentItem)
  | nullContent
deriving DecidableEq, Repr

/-- One tool call requested by the model (`id`, `function.name`,
`function.arguments`). -/
structure ToolCall where
  id : String
  fname : String
  args : String
deriving DecidableEq, Repr

/-- A conversation message (one dict of the `messages` list).  `fname`
is the `"name"` key of tool messages. -/
structure Msg where
  role : String
  content : MsgContent
  toolCallId : String := ""
  fname : String := ""
  toolCalls : List ToolCall := []
deriving DecidableEq, Repr

/-- Contribution of one list item to `_count_tokens`. -/
def itemTok : ContentItem → Nat
  | .textItem s => s.length / 4
  | .toolCallItem rendered => rendered.length / 4
  | .otherItem => 0

/-- Contribution of one message's `content` to `_count_tokens`. -/
def contentTok : MsgContent → Nat
  | .str s => s.length / 4
  | .items l => l.foldl (fun a i => a + itemTok i) 0
  | .nullContent => 0

/-- `RepoAgent._count_tokens`:  4 per message, plus the message's content
length divided by 4 (string content directly, list content item by item),
plus a flat 2000 at the end. -/
def count_tokens (messages : List Msg) : Nat :=
  (messages.foldl (fun total m => total + 4 + contentTok m.content) 0) + 2000

/-- `RepoAgent.max_tokens` (set in `__init__`). -/
def agentMaxTokens : Nat := 120000

/-- Python `l[-k:]` for `0 < k` (and for `k = 0` on an empty list, the
only way `_trim_conversation_history` reaches it): the last
`min k l.length` elements. -/
def lastSlice (l : List Msg) (k : Nat) : List Msg :=
  l.drop (l.length - k)

/-- `RepoAgent._trim_conversation_history`: return the list unchanged
when the estimate fits the budget; otherwise keep the leading system
message (when there is one) and the last `min 10 _` of the remaining
messages. -/
def trim_conversation_history (messages : List Msg) : List Msg :=
  if count_tokens messages ≤ agentMaxTokens then messages
  else
    match messages with
    | [] => []
    | m :: rest =>
      if m.role = "system" then m :: lastSlice rest (min 10 rest.length)
      else lastSlice (m :: rest) (min 10 (m :: rest).length)

/-- The token sum that claim C5 describes: only the content lengths
divided by 4, with no per-message or flat overhead.  (Stated from the
spec's words, for comparison with `count_tokens`.) -/
def claimedTokenSum (messages : List Msg) : Nat :=
  (messages.map (fun m => contentTok m.content)).sum

/-- `count_tokens` as a closed form: 2000 plus, for each message, 4 plus
its content contribution. -/
theorem count_tokens_eq_sum (messages : List Msg) :
    count_tokens messages =
      2000 + (messages.map (fun m => 4 + contentTok m.content)).sum := by
  unfold count_tokens
  suffices h : ∀ (ms : List Msg) (a : Nat),
      ms.foldl (fun total m => total + 4 + contentTok m.content) a =
        a + (ms.map (fun m => 4 + contentTok m.content)).sum by
    rw [h]; omega
  intro ms
  induction ms with
  | nil => simp
  | cons m rest ih =>
    intro a
    simp only [List.foldl_cons, List.map_cons, List.sum_cons, ih]
    omega

end RepoAnalyzer

/-- C4: `_trim_conversation_history` returns the list unchanged when the
token estimate fits the 120000 budget; otherwise it keeps the leading
system message (when the list starts with one) followed by exactly the
last `min 10 _` of the remaining messages, in order — in particular the
result is always a sublist (no reordering or rewriting). -/
theorem trim_history_slices (ms : List RepoAnalyzer.Msg) :
    (RepoAnalyzer.count_tokens ms ≤ 120000 →
      RepoAnalyzer.trim_conversation_history ms = ms) ∧
    (120000 < RepoAnalyzer.count_tokens ms →
      ∀ m rest, ms = m :: rest →
        (m.role = "system" →
          RepoAnalyzer.trim_conversation_history ms =
            m :: rest.drop (rest.length - min 10 rest.length)) ∧
        (m.role ≠ "system" →
          RepoAnalyzer.trim_conversation_history ms =
            ms.drop (ms.length - min 10 ms.length))) ∧
    List.Sublist (RepoAnalyzer.trim_conversation_history ms) ms := by
  refine ⟨?_, ?_, ?_⟩
  · intro h
    unfold RepoAnalyzer.trim_conversation_history
    simp [RepoAnalyzer.agentMaxTokens, h]
  · intro h m rest hms
    subst hms
    constructor
    · intro hrole
      unfold RepoAnalyzer.trim_conversation_history
      rw [if_neg (by simp [RepoAnalyzer.agentMaxTokens]; omega)]
      simp [hrole, RepoAnalyzer.lastSlice]
    · intro hrole
      unfold RepoAnalyzer.trim_conversation_history
      rw [if_neg (by simp [RepoAnalyzer.agentMaxTokens]; omega)]
      simp [hrole, RepoAnalyzer.lastSlice]
  · unfold RepoAnalyzer.trim_conversation_history
    split
    · exact List.Sublist.refl ms
    · match ms with
      | [] => simp
      | m :: rest =>
        dsimp only
        split
        · exact (List.drop_sublist _ rest).cons₂ m
        · exact List.drop_sublist _ (m :: rest)

namespace RepoAnalyzer

/-- A short message whose conversation fits the budget. -/
def smallMsg : Msg := { role := "user", content := .str "hi" }

/-- A 480000-character content string, enough to blow the 120000-token
budget on its own. -/
def bigContent : String := String.mk (List.replicate 480000 'a')

/-- A system message and an oversized user message. -/
def sysMsg : Msg := { role := "system", content := .str "sys" }

/-- The oversized user message built from `bigContent`. -/
def bigMsg : Msg := { role := "user", content := .str bigContent }

theorem bigContent_length : bigContent.length = 480000 := by
  unfold bigContent
  rw [String.length]
  exact List.length_replicate _ _

theorem contentTok_str (s : String) : contentTok (.str s) = s.length / 4 := rfl

theorem bigMsg_content : bigMsg.content = .str bigContent := rfl

theorem sysMsg_content : sysMsg.content = .str "sys" := rfl

theorem contentTok_bigMsg : contentTok bigMsg.content = 120000 := by
  rw [bigMsg_content, contentTok_str, bigContent_length]

theorem contentTok_sysMsg : contentTok sysMsg.content = 0 := by
  rw [sysMsg_content, contentTok_str]
  decide

/-- `count_tokens` on a two-message list, with the contents abstract (so
that instantiating it never makes the kernel evaluate a long string). -/
theorem count_tokens_two (m1 m2 : Msg) :
    count_tokens [m1, m2] =
      2000 + ((4 + contentTok m1.content) + ((4 + contentTok m2.content) + 0)) := by
  rw [count_tokens_eq_sum]
  simp only [List.map_cons, List.map_nil, List.sum_cons, List.sum_nil]

theorem count_tokens_big : count_tokens [sysMsg, bigMsg] = 122008 := by
  rw [count_tokens_two, contentTok_bigMsg, contentTok_sysMsg]

end RepoAnalyzer

/-- Witness for C4 at concrete inputs: a small conversation is returned
unchanged, and an oversized conversation headed by a system message is
trimmed to the system message plus the sliced suffix. -/
theorem trim_history_slices_witness :
    RepoAnalyzer.trim_conversation_history [RepoAnalyzer.smallMsg] =
      [RepoAnalyzer.smallMsg] ∧
    RepoAnalyzer.trim_conversation_history
        [RepoAnalyzer.sysMsg, RepoAnalyzer.bigMsg] =
      RepoAnalyzer.sysMsg ::
        [RepoAnalyzer.bigMsg].drop ([RepoAnalyzer.bigMsg].length - min 10 [RepoAnalyzer.bigMsg].length) := by
  constructor
  · exact (trim_history_slices [RepoAnalyzer.smallMsg]).1 (by decide)
  · refine (((trim_history_slices [RepoAnalyzer.sysMsg, RepoAnalyzer.bigMsg]).2.1
      (by rw [RepoAnalyzer.count_tokens_big]; omega)
      RepoAnalyzer.sysMsg [RepoAnalyzer.bigMsg] rfl).1 ?_)
    rfl

namespace RepoAnalyzer

/-! ## Decimal rendering of Python ints

Python's `str(n)` and f-string interpolation for the non-negative ints
of this codebase, plus the thousands-separated `f"{n:,}"` format used in
`tools.py`. -/

/-- The decimal digit character for `d < 10`. -/
def decDigit (d : Nat) : Char := Char.ofNat (48 + d)

/-- The decimal digit characters of `n`, most significant first. -/
def decChars (n : Nat) : List Char :=
  ((Nat.digits 10 n).map decDigit).reverse

/-- Python `str(n)` for a non-negative int. -/
def pyIntStr (n : Nat) : String :=
  if n = 0 then "0" else String.mk (decChars n)

/-- Groups of at most three characters, taken from the front. -/
def chunk3 : List Char → List (List Char)
  | [] => []
  | c :: rest => ((c :: rest).take 3) :: chunk3 ((c :: rest).drop 3)
termination_by l => l.length
decreasing_by simp [List.length_drop]; omega

/-- Python `f"{n:,}"`: the decimal digits grouped in threes from the
right with comma separators. -/
def pyIntStrComma (n : Nat) : String :=
  String.mk ((List.intercalate [','] (chunk3 (pyIntStr n).data.reverse)).reverse)

theorem decDigit_inj_lt : ∀ a, a < 10 → ∀ b, b < 10 → decDigit a = decDigit b → a = b := by
  decide

theorem decDigit_ne_underscore : ∀ a, a < 10 → decDigit a ≠ '_' := by
  decide

/-- Digit lists below 10 are recovered from their character rendering. -/
theorem map_decDigit_inj :
    ∀ l1 l2 : List Nat, (∀ x ∈ l1, x < 10) → (∀ x ∈ l2, x < 10) →
      l1.map decDigit = l2.map decDigit → l1 = l2 := by
  intro l1
  induction l1 with
  | nil => intro l2 _ _ h; cases l2 <;> simp_all
  | cons a t ih =>
    intro l2 h1 h2 h
    cases l2 with
    | nil => simp_all
    | cons b t2 =>
      simp only [List.map_cons, List.cons.injEq] at h
      have ha : a < 10 := h1 a (by simp)
      have hb : b < 10 := h2 b (by simp)
      have : a = b := decDigit_inj_lt a ha b hb h.1
      subst this
      have : t = t2 := ih t2 (fun x hx => h1 x (by simp [hx]))
        (fun x hx => h2 x (by simp [hx])) h.2
      simp [this]

/-- For non-zero `n`, the digit rendering is never the single char `'0'`
(the leading digit of `n` is non-zero). -/
theorem decChars_ne_zero_singleton {n : Nat} (hn : n ≠ 0) : decChars n ≠ ['0'] := by
  intro hd
  unfold decChars at hd
  have h1 : (Nat.digits 10 n).map decDigit = ['0'] := by
    have := congrArg List.reverse hd
    simpa using this
  have h2 : Nat.digits 10 n = [0] := by
    apply map_decDigit_inj _ [0]
      (fun x hx => Nat.digits_lt_base (by norm_num) hx) (by simp)
    rw [h1]
    decide
  have h4 : n = Nat.ofDigits 10 [0] := by
    conv_lhs => rw [← Nat.ofDigits_digits 10 n]
    rw [h2]
  simp [Nat.ofDigits] at h4
  exact hn h4

/-- `str` on non-negative ints is injective. -/
theorem pyIntStr_inj : Function.Injective pyIntStr := by
  intro m n h
  unfold pyIntStr at h
  by_cases hm : m = 0 <;> by_cases hn : n = 0
  · omega
  · exfalso
    rw [if_pos hm, if_neg hn] at h
    have hd : decChars n = ['0'] := by
      have := congrArg String.data h
      simpa using this.symm
    exact decChars_ne_zero_singleton hn hd
  · exfalso
    rw [if_neg hm, if_pos hn] at h
    have hd : decChars m = ['0'] := by
      have := congrArg String.data h
      simpa using this
    exact decChars_ne_zero_singleton hm hd
  · rw [if_neg hm, if_neg hn] at h
    have hd : decChars m = decChars n := by
      have := congrArg String.data h
      simpa using this
    unfold decChars at hd
    have hrev := congrArg List.reverse hd
    simp only [List.reverse_reverse] at hrev
    have hdig : Nat.digits 10 m = Nat.digits 10 n :=
      map_decDigit_inj _ _ (fun x hx => Nat.digits_lt_base (by norm_num) hx)
        (fun x hx => Nat.digits_lt_base (by norm_num) hx) hrev
    exact Nat.digits_inj_iff.mp hdig

/-- Every character of `str(n)` is a decimal digit, hence not `'_'`. -/
theorem pyIntStr_no_underscore (n : Nat) : ∀ c ∈ (pyIntStr n).data, c ≠ '_' := by
  intro c hc
  unfold pyIntStr at hc
  by_cases hn : n = 0
  · rw [if_pos hn] at hc
    have h0 : ("0" : String).data = ['0'] := rfl
    rw [h0] at hc
    simp at hc
    subst hc
    decide
  · rw [if_neg hn] at hc
    simp only [decChars] at hc
    rw [List.mem_reverse, List.mem_map] at hc
    obtain ⟨d, hd, rfl⟩ := hc
    exact decDigit_ne_underscore d (Nat.digits_lt_base (by norm_num) hd)

end RepoAnalyzer

/-- C5 counterexample: `_count_tokens` is not the bare sum of content
lengths divided by 4 — on the empty message list it returns the flat
overhead 2000, not 0. -/
theorem count_tokens_ne_claimed_sum :
    RepoAnalyzer.count_tokens [] ≠ RepoAnalyzer.claimedTokenSum [] := by
  decide

/-- C5 amended: `_count_tokens` is the character-count-divided-by-4
heuristic plus overheads: 2000 flat, plus 4 per message, plus each
message's content length divided by 4 (list contents item by item). -/
theorem count_tokens_heuristic (ms : List RepoAnalyzer.Msg) :
    RepoAnalyzer.count_tokens ms =
      2000 + 4 * ms.length + RepoAnalyzer.claimedTokenSum ms := by
  rw [RepoAnalyzer.count_tokens_eq_sum]
  unfold RepoAnalyzer.claimedTokenSum
  induction ms with
  | nil => simp
  | cons m rest ih =>
    simp only [List.map_cons, List.sum_cons, List.length_cons] at *
    omega

namespace RepoAnalyzer

/-! ## src/tools.py — RepoTools._analyze_commit_patterns

A commit metadata record as stored by the processor (the `.get`
defaults `'Unknown'`/`0` never fire on processor-written metadata, whose
keys are always present; the record carries the values directly). -/

/-- Commit metadata as read back from the index. -/
structure CommitMeta where
  author : String
  additions : Nat
  deletions : Nat
deriving DecidableEq, Repr

/-- The `authors` dict keys in insertion order: first occurrence of each
author while scanning the commit list. -/
def authorKeys (ms : List CommitMeta) : List String :=
  ms.foldl (fun acc m => if acc.contains m.author then acc else acc ++ [m.author]) []

/-- Sum of the `additions` fields. -/
def totalAdditions (ms : List CommitMeta) : Nat :=
  ms.foldl (fun a m => a + m.additions) 0

/-- Sum of the `deletions` fields. -/
def totalDeletions (ms : List CommitMeta) : Nat :=
  ms.foldl (fun a m => a + m.deletions) 0

/-- The three trend verdicts of the `if/elif/else` in
`_analyze_commit_patterns`. -/
inductive Trend where
  | features
  | cleanup
  | balanced
deriving DecidableEq, Repr

/-- The `if/elif/else` dispatch on the totals. -/
def commitTrend (a d : Nat) : Trend :=
  if a > d * 2 then .features
  else if d > a * 2 then .cleanup
  else .balanced

/-- The line appended for each verdict. -/
def trendLine : Trend → String
  | .features => "📈 Trend: Primarily adding new features/code\n"
  | .cleanup => "🧹 Trend: Significant code cleanup or refactoring\n"
  | .balanced => "⚖️ Trend: Balanced mix of additions and modifications\n"

/-- The analysis header: banner, totals (comma-formatted), contributor
list. -/
def analysisStats (ms : List CommitMeta) : String :=
  "\n=== COMMIT ANALYSIS ===\n"
    ++ "Total changes: +" ++ pyIntStrComma (totalAdditions ms) ++ " additions, -"
    ++ pyIntStrComma (totalDeletions ms) ++ " deletions\n"
    ++ "Active contributors: " ++ String.intercalate ", " (authorKeys ms) ++ "\n"

/-- `RepoTools._analyze_commit_patterns`: empty string on no data,
otherwise the stats header followed by the trend line chosen from the
totals. -/
def analyze_commit_patterns (ms : List CommitMeta) : String :=
  if ms = [] then ""
  else analysisStats ms ++ trendLine (commitTrend (totalAdditions ms) (totalDeletions ms))

theorem commitTrend_features_iff (a d : Nat) :
    commitTrend a d = .features ↔ 2 * d < a := by
  unfold commitTrend
  by_cases h1 : a > d * 2
  · rw [if_pos h1]
    simp
    omega
  · rw [if_neg h1]
    by_cases h2 : d > a * 2
    · rw [if_pos h2]
      simp
      omega
    · rw [if_neg h2]
      simp
      omega

theorem commitTrend_cleanup_iff (a d : Nat) :
    commitTrend a d = .cleanup ↔ 2 * a < d := by
  unfold commitTrend
  by_cases h1 : a > d * 2
  · rw [if_pos h1]
    simp
    omega
  · rw [if_neg h1]
    by_cases h2 : d > a * 2
    · rw [if_pos h2]
      simp
      omega
    · rw [if_neg h2]
      simp
      omega

theorem commitTrend_balanced_iff (a d : Nat) :
    commitTrend a d = .balanced ↔ (a ≤ 2 * d ∧ d ≤ 2 * a) := by
  unfold commitTrend
  by_cases h1 : a > d * 2
  · rw [if_pos h1]
    simp
    omega
  · rw [if_neg h1]
    by_cases h2 : d > a * 2
    · rw [if_pos h2]
      simp
      omega
    · rw [if_neg h2]
      simp
      omega

theorem trendLine_inj (t t' : Trend) (h : trendLine t = trendLine t') : t = t' := by
  cases t <;> cases t' <;> revert h <;> decide

end RepoAnalyzer

/-- C8: the commit trend heuristic is an exhaustive, mutually exclusive
trichotomy on the totals A (additions) and D (deletions):
`_analyze_commit_patterns` reports the features trend iff A > 2·D, the
cleanup trend iff D > 2·A, balanced otherwise, and returns `""` exactly
on the empty list.  The three verdicts carry three distinct lines. -/
theorem analyze_commit_patterns_trichotomy (ms : List RepoAnalyzer.CommitMeta) :
    (ms = [] → RepoAnalyzer.analyze_commit_patterns ms = "") ∧
    (ms ≠ [] →
      RepoAnalyzer.analyze_commit_patterns ms =
        RepoAnalyzer.analysisStats ms ++
          RepoAnalyzer.trendLine
            (RepoAnalyzer.commitTrend (RepoAnalyzer.totalAdditions ms)
              (RepoAnalyzer.totalDeletions ms))) ∧
    (RepoAnalyzer.commitTrend (RepoAnalyzer.totalAdditions ms)
        (RepoAnalyzer.totalDeletions ms) = RepoAnalyzer.Trend.features ↔
      2 * RepoAnalyzer.totalDeletions ms < RepoAnalyzer.totalAdditions ms) ∧
    (RepoAnalyzer.commitTrend (RepoAnalyzer.totalAdditions ms)
        (RepoAnalyzer.totalDeletions ms) = RepoAnalyzer.Trend.cleanup ↔
      2 * RepoAnalyzer.totalAdditions ms < RepoAnalyzer.totalDeletions ms) ∧
    (RepoAnalyzer.commitTrend (RepoAnalyzer.totalAdditions ms)
        (RepoAnalyzer.totalDeletions ms) = RepoAnalyzer.Trend.balanced ↔
      (RepoAnalyzer.totalAdditions ms ≤ 2 * RepoAnalyzer.totalDeletions ms ∧
       RepoAnalyzer.totalDeletions ms ≤ 2 * RepoAnalyzer.totalAdditions ms)) ∧
    (∀ t t' : RepoAnalyzer.Trend,
      RepoAnalyzer.trendLine t = RepoAnalyzer.trendLine t' → t = t') := by
  refine ⟨?_, ?_, ?_, ?_, ?_, ?_⟩
  · intro h
    simp [RepoAnalyzer.analyze_commit_patterns, h]
  · intro h
    simp [RepoAnalyzer.analyze_commit_patterns, h]
  · exact RepoAnalyzer.commitTrend_features_iff _ _
  · exact RepoAnalyzer.commitTrend_cleanup_iff _ _
  · exact RepoAnalyzer.commitTrend_balanced_iff _ _
  · exact RepoAnalyzer.trendLine_inj

namespace RepoAnalyzer

/-- A commit with far more additions than deletions. -/
def featureCommit : CommitMeta := { author := "alice", additions := 10, deletions := 1 }

end RepoAnalyzer

/-- Witness for C8 at concrete inputs: the empty list yields `""`, and a
one-commit list with 10 additions and 1 deletion is reported with the
features trend line. -/
theorem analyze_commit_patterns_trichotomy_witness :
    RepoAnalyzer.analyze_commit_patterns [] = "" ∧
    RepoAnalyzer.analyze_commit_patterns [RepoAnalyzer.featureCommit] =
      RepoAnalyzer.analysisStats [RepoAnalyzer.featureCommit] ++
        RepoAnalyzer.trendLine
          (RepoAnalyzer.commitTrend
            (RepoAnalyzer.totalAdditions [RepoAnalyzer.featureCommit])
            (RepoAnalyzer.totalDeletions [RepoAnalyzer.featureCommit])) ∧
    RepoAnalyzer.commitTrend
        (RepoAnalyzer.totalAdditions [RepoAnalyzer.featureCommit])
        (RepoAnalyzer.totalDeletions [RepoAnalyzer.featureCommit]) =
      RepoAnalyzer.Trend.features := by
  refine ⟨?_, ?_, ?_⟩
  · exact (analyze_commit_patterns_trichotomy []).1 rfl
  · exact (analyze_commit_patterns_trichotomy [RepoAnalyzer.featureCommit]).2.1
      (by simp)
  · exact (analyze_commit_patterns_trichotomy [RepoAnalyzer.featureCommit]).2.2.1.mpr
      (by decide)

namespace RepoAnalyzer

/-! ## src/processor.py — RepoProcessor chunking

The chunkers work on Python strings character by character, so they are
embedded over `List Char` with `String` wrappers at the boundary.
`splitPar`/`joinPar` are Python's `split('\n\n')` / `'\n\n'.join`, and
`splitNL`/`joinNL` the single-newline versions. -/

/-- Chunking parameters set in `RepoProcessor.__init__`. -/
def chunk_size : Nat := 1000

/-- `self.chunk_overlap` (characters of overlap for context). -/
def chunk_overlap : Nat := 200

/-- `self.max_chunk_size` (commented `# hard limit` in the source). -/
def max_chunk_size : Nat := 1500

/-- Prepend a character to the first group of a split. -/
def consHead (c : Char) : List (List Char) → List (List Char)
  | [] => [[c]]
  | p :: ps => (c :: p) :: ps

/-- Python `s.split('\n\n')`: left-to-right, non-overlapping occurrences
of the two-newline separator. -/
def splitPar : List Char → List (List Char)
  | [] => [[]]
  | '\n' :: '\n' :: rest => [] :: splitPar rest
  | c :: rest => consHead c (splitPar rest)

/-- Python `'\n\n'.join(ps)`. -/
def joinPar : List (List Char) → List Char
  | [] => []
  | [p] => p
  | p :: ps => p ++ '\n' :: '\n' :: joinPar ps

/-- Python `s.split('\n')`. -/
def splitNL : List Char → List (List Char)
  | [] => [[]]
  | '\n' :: rest => [] :: splitNL rest
  | c :: rest => consHead c (splitNL rest)

/-- Python `'\n'.join(ps)`. -/
def joinNL : List (List Char) → List Char
  | [] => []
  | [p] => p
  | p :: ps => p ++ '\n' :: joinNL ps

theorem consHead_ne_nil (c : Char) (l : List (List Char)) : consHead c l ≠ [] := by
  cases l <;> simp [consHead]

theorem splitPar_ne_nil (cs : List Char) : splitPar cs ≠ [] := by
  induction cs using splitPar.induct with
  | case1 => simp [splitPar]
  | case2 rest ih => simp [splitPar]
  | case3 c rest h ih =>
    rw [splitPar.eq_def]
    split
    · simp
    · simp
    · exact consHead_ne_nil _ _

/-- `'\n\n'.join` undoes a `consHead` on a non-empty split. -/
theorem joinPar_consHead (c : Char) (l : List (List Char)) (h : l ≠ []) :
    joinPar (consHead c l) = c :: joinPar l := by
  match l with
  | [] => exact absurd rfl h
  | [p] => rfl
  | p :: q :: ps => rfl

/-- Joining the paragraphs recovers the original text. -/
theorem joinPar_splitPar (cs : List Char) : joinPar (splitPar cs) = cs := by
  induction cs using splitPar.induct with
  | case1 => rfl
  | case2 rest ih =>
    rw [splitPar]
    obtain ⟨p, ps, hsp⟩ : ∃ p ps, splitPar rest = p :: ps := by
      match hsp : splitPar rest with
      | [] => exact absurd hsp (splitPar_ne_nil rest)
      | p :: ps => exact ⟨p, ps, rfl⟩
    rw [hsp] at ih ⊢
    show ([] : List Char) ++ '\n' :: '\n' :: joinPar (p :: ps) = '\n' :: '\n' :: rest
    rw [List.nil_append, ih]
  | case3 c rest h ih =>
    rw [splitPar.eq_3 c rest h, joinPar_consHead c _ (splitPar_ne_nil rest), ih]

end RepoAnalyzer

namespace RepoAnalyzer

/-- Total paragraph weight as the generic chunker accounts it:
`len(para) + 2` per paragraph. -/
def sumLens (ps : List (List Char)) : Nat :=
  (ps.map (fun p => p.length + 2)).sum

theorem sumLens_consHead (c : Char) (l : List (List Char)) (h : l ≠ []) :
    sumLens (consHead c l) = 1 + sumLens l := by
  match l with
  | [] => exact absurd rfl h
  | p :: ps => simp [consHead, sumLens]; omega

/-- The paragraph weights of a split sum to the text length plus 2. -/
theorem sumLens_splitPar (cs : List Char) : sumLens (splitPar cs) = cs.length + 2 := by
  induction cs using splitPar.induct with
  | case1 => rfl
  | case2 rest ih =>
    rw [splitPar]
    simp only [sumLens, List.map_cons, List.sum_cons] at *
    simp [ih]
    omega
  | case3 c rest h ih =>
    rw [splitPar.eq_3 c rest h, sumLens_consHead c _ (splitPar_ne_nil rest), ih]
    simp
    omega

/-- The paragraph-accumulation loop of `_chunk_generic_text`: `chunks`
and `current_chunk` are lists of paragraphs, `size` is `current_size`.
On overflow with a non-empty current chunk the joined chunk is flushed
and the last paragraph is kept as overlap; the paragraph is then
appended in every case. -/
def genericGo : List (List Char) → List (List Char) → List (List Char) → Nat → List (List Char)
  | [], chunks, current, _ =>
      if current.isEmpty then chunks else chunks ++ [joinPar current]
  | p :: ps, chunks, current, size =>
      if size + (p.length + 2) > chunk_size ∧ current ≠ [] then
        genericGo ps (chunks ++ [joinPar current]) [current.getLast!, p]
          ((current.getLast!.length + 2) + (p.length + 2))
      else
        genericGo ps chunks (current ++ [p]) (size + (p.length + 2))

/-- Python `c.isspace()`-style whitespace, as `str.strip` removes. -/
def pySpaceChar (c : Char) : Bool :=
  c == ' ' || c == '\t' || c == '\n' || c == '\r' || c == '\x0b' || c == '\x0c'

/-- Truthiness of `chunk.strip()`: some non-whitespace character. -/
def pyStripTruthy (cs : List Char) : Bool :=
  cs.any (fun c => !(pySpaceChar c))

/-- The `range(0, len(content), chunk_size - chunk_overlap)` fallback of
`_chunk_generic_text`, slicing `content[i:i+chunk_size]` and keeping the
slices that strip to something non-empty. -/
def fallbackChunks (cs : List Char) : List (List Char) :=
  ((List.range' 0
      ((cs.length + (chunk_size - chunk_overlap) - 1) / (chunk_size - chunk_overlap))
      (chunk_size - chunk_overlap)).map
    (fun i => (cs.drop i).take chunk_size)).filter pyStripTruthy

/-- `RepoProcessor._chunk_generic_text` over character lists. -/
def chunk_generic_text_chars (cs : List Char) : List (List Char) :=
  let chunks := genericGo (splitPar cs) [] [] 0
  if chunks.isEmpty then fallbackChunks cs else chunks

/-- `RepoProcessor._chunk_generic_text`. -/
def chunk_generic_text (content : String) : List String :=
  (chunk_generic_text_chars content.data).map String.mk

/-- As long as every prefix fits `chunk_size`, the loop never flushes:
everything ends up in one final joined chunk. -/
theorem genericGo_no_flush (ps : List (List Char)) :
    ∀ chunks current size, size + sumLens ps ≤ chunk_size →
      genericGo ps chunks current size =
        if (current ++ ps).isEmpty then chunks
        else chunks ++ [joinPar (current ++ ps)] := by
  induction ps with
  | nil =>
    intro chunks current size _
    simp [genericGo]
  | cons p ps ih =>
    intro chunks current size hle
    have hsum : sumLens (p :: ps) = (p.length + 2) + sumLens ps := by
      simp [sumLens]
    rw [genericGo, if_neg (by rw [hsum] at hle; rintro ⟨h1, -⟩; omega)]
    rw [ih chunks (current ++ [p]) (size + (p.length + 2))
      (by rw [hsum] at hle; omega)]
    simp [List.append_assoc]

/-- A text whose length plus 2 fits `chunk_size` comes back as the single
chunk equal to the text itself. -/
theorem chunk_generic_small (cs : List Char) (h : cs.length + 2 ≤ chunk_size) :
    chunk_generic_text_chars cs = [cs] := by
  have hgo := genericGo_no_flush (splitPar cs) [] [] 0
    (by rw [sumLens_splitPar]; omega)
  rw [List.nil_append] at hgo
  have h2 : genericGo (splitPar cs) [] [] 0 = [cs] := by
    rw [hgo, if_neg (by simp [List.isEmpty_iff, splitPar_ne_nil])]
    rw [List.nil_append, joinPar_splitPar]
  show (if (genericGo (splitPar cs) [] [] 0).isEmpty then fallbackChunks cs
        else genericGo (splitPar cs) [] [] 0) = [cs]
  rw [h2]
  simp

theorem string_mk_data (s : String) : String.mk s.data = s := rfl

end RepoAnalyzer

/-- C9: chunking a short text is the identity — when the text's length
plus 2 is at most `chunk_size` (1000), `_chunk_generic_text` returns
exactly one chunk, equal to the input text. -/
theorem chunk_short_text_identity (content : String)
    (h : content.length + 2 ≤ 1000) :
    RepoAnalyzer.chunk_generic_text content = [content] := by
  unfold RepoAnalyzer.chunk_generic_text
  rw [RepoAnalyzer.chunk_generic_small content.data (by exact h)]
  simp [RepoAnalyzer.string_mk_data]

/-- Witness for C9 at a concrete two-paragraph text. -/
theorem chunk_short_text_identity_witness :
    RepoAnalyzer.chunk_generic_text "hello\n\nworld" = ["hello\n\nworld"] ∧
    ("hello\n\nworld" : String).length + 2 ≤ 1000 :=
  ⟨chunk_short_text_identity _ (by decide), by decide⟩

namespace RepoAnalyzer

/-- Python string-prefix test (`s.startswith(pat)`), character level. -/
def isPre : List Char → List Char → Bool
  | [], _ => true
  | _ :: _, [] => false
  | a :: as, b :: bs => a == b && isPre as bs

/-- Python `line.lstrip()`. -/
def pyLstrip (cs : List Char) : List Char :=
  cs.dropWhile pySpaceChar

/-- `current_chunk[-10:] if len(current_chunk) > 10 else current_chunk`. -/
def keepOverlap (l : List (List Char)) : List (List Char) :=
  if l.length > 10 then l.drop (l.length - 10) else l

/-- `sum(len(l) + 1 for l in lines)`. -/
def sizeOfLines (l : List (List Char)) : Nat :=
  (l.map (fun x => x.length + 1)).sum

/-- Loop state of `_chunk_python_code`. -/
structure PyChunkState where
  chunks : List (List Char)
  current : List (List Char)
  size : Nat
  inFunction : Bool
  inClass : Bool
  indent : Nat
deriving Repr

/-- One iteration of the `for line in lines` loop of
`_chunk_python_code`: detect `def`/`async def`/`class` headers, then on
overflow either keep filling the current function/class until it closes
(flushing with a 10-line overlap) or flush and start a fresh chunk. -/
def pyChunkStep (firstLine : List Char) (st : PyChunkState) (line : List Char) :
    PyChunkState :=
  let lineSize := line.length + 1
  let stripped := pyLstrip line
  let det :=
    if isPre "def ".data stripped || isPre "async def ".data stripped then
      { st with inFunction := true, indent := line.length - stripped.length }
    else if isPre "class ".data stripped then
      { st with inClass := true, indent := line.length - stripped.length }
    else st
  if det.size + lineSize > chunk_size then
    if det.inFunction || det.inClass then
      let cur := det.current ++ [line]
      if stripped ≠ [] ∧ line.length - stripped.length ≤ det.indent ∧
          line ≠ firstLine then
        let overlap := keepOverlap cur
        { det with chunks := det.chunks ++ [joinNL cur],
                   current := overlap,
                   size := sizeOfLines overlap,
                   inFunction := false, inClass := false }
      else
        { det with current := cur, size := det.size + lineSize }
    else
      let flushed :=
        if det.current ≠ [] then
          let overlap := keepOverlap det.current
          { det with chunks := det.chunks ++ [joinNL det.current],
                     current := overlap, size := sizeOfLines overlap }
        else det
      { flushed with current := flushed.current ++ [line],
                     size := flushed.size + lineSize }
  else
    { det with current := det.current ++ [line], size := det.size + lineSize }

/-- `RepoProcessor._chunk_python_code` over character lists. -/
def chunk_python_code_chars (cs : List Char) : List (List Char) :=
  let lines := splitNL cs
  let final := lines.foldl (pyChunkStep (lines.headD []))
    { chunks := [], current := [], size := 0,
      inFunction := false, inClass := false, indent := 0 }
  final.chunks ++ (if final.current ≠ [] then [joinNL final.current] else [])

/-- `RepoProcessor._chunk_python_code`. -/
def chunk_python_code (content : String) : List String :=
  (chunk_python_code_chars content.data).map String.mk

theorem splitNL_no_newline (cs : List Char) (h : '\n' ∉ cs) :
    splitNL cs = [cs] := by
  induction cs using splitNL.induct with
  | case1 => rfl
  | case2 rest ih => simp at h
  | case3 c rest hguard ih =>
    have hn : '\n' ∉ rest := fun hm => h (List.mem_cons_of_mem c hm)
    rw [splitNL.eq_3 c rest hguard, ih hn, consHead]

theorem splitPar_no_newline (cs : List Char) (h : '\n' ∉ cs) :
    splitPar cs = [cs] := by
  induction cs using splitPar.induct with
  | case1 => rfl
  | case2 rest ih => simp at h
  | case3 c rest hguard ih =>
    have hn : '\n' ∉ rest := fun hm => h (List.mem_cons_of_mem c hm)
    rw [splitPar.eq_3 c rest hguard, ih hn, consHead]

/-- A text that is a single line comes back from the Python chunker as
one chunk equal to the whole text — no size cap intervenes. -/
theorem chunk_python_single_line (cs : List Char) (h : '\n' ∉ cs) :
    chunk_python_code_chars cs = [cs] := by
  unfold chunk_python_code_chars
  rw [splitNL_no_newline cs h]
  simp only [List.headD_cons, List.foldl_cons, List.foldl_nil]
  unfold pyChunkStep
  dsimp only
  repeat' split
  all_goals simp_all [joinNL, keepOverlap]

/-- A text whose paragraphs split is itself comes back from the generic
chunker as one chunk equal to the whole text. -/
theorem chunk_generic_single_par (cs : List Char) (h : splitPar cs = [cs]) :
    chunk_generic_text_chars cs = [cs] := by
  show (if (genericGo (splitPar cs) [] [] 0).isEmpty then fallbackChunks cs
        else genericGo (splitPar cs) [] [] 0) = [cs]
  rw [h]
  have h2 : genericGo [cs] [] [] 0 = [cs] := by
    rw [genericGo, if_neg (by rintro ⟨-, hc⟩; exact hc rfl)]
    rw [genericGo]
    simp [joinPar]
  rw [h2]
  simp

/-- A 2000-character single-line text. -/
def bigLine : String := String.mk (List.replicate 2000 'a')

theorem bigLine_length : bigLine.length = 2000 := by
  unfold bigLine
  rw [String.length]
  exact List.length_replicate _ _

theorem bigLine_no_newline : '\n' ∉ bigLine.data := by
  intro hm
  have := List.eq_of_mem_replicate hm
  simp at this

end RepoAnalyzer

/-- C1 is wrong on the code (the code's own `# hard limit` comment
notwithstanding): on a 2000-character single-line input both
`_chunk_python_code` and `_chunk_generic_text` return the whole text as
one chunk of length 2000, which exceeds `max_chunk_size = 1500`.  No
chunker ever reads `max_chunk_size`. -/
theorem chunkers_exceed_hard_limit :
    RepoAnalyzer.chunk_python_code RepoAnalyzer.bigLine = [RepoAnalyzer.bigLine] ∧
    RepoAnalyzer.chunk_generic_text RepoAnalyzer.bigLine = [RepoAnalyzer.bigLine] ∧
    RepoAnalyzer.max_chunk_size < RepoAnalyzer.bigLine.length := by
  refine ⟨?_, ?_, ?_⟩
  · unfold RepoAnalyzer.chunk_python_code
    rw [RepoAnalyzer.chunk_python_single_line _ RepoAnalyzer.bigLine_no_newline]
    simp [RepoAnalyzer.string_mk_data]
  · unfold RepoAnalyzer.chunk_generic_text
    rw [RepoAnalyzer.chunk_generic_single_par _
      (RepoAnalyzer.splitPar_no_newline _ RepoAnalyzer.bigLine_no_newline)]
    simp [RepoAnalyzer.string_mk_data]
  · rw [RepoAnalyzer.bigLine_length]
    decide

namespace RepoAnalyzer

/-! ## src/github_fetcher.py — RepoFetcher

The fetch helpers iterate over paginated API objects.  Raw API records
are modelled with explicit success flags for the `try/except` blocks:
a record whose flag is false raises somewhere inside its `try` and is
skipped (`continue`) without counting. -/

/-- `commit.commit.author` (name and ISO date), when present. -/
structure RawAuthor where
  name : String
  date : String
deriving DecidableEq, Repr

/-- One commit as the GitHub API yields it. -/
structure RawCommit where
  sha : String
  message : String
  author : Option RawAuthor
  files : List String
  additions : Nat
  deletions : Nat
  fetchOk : Bool
deriving DecidableEq, Repr

/-- One commit dict as `_fetch_commits` builds it. -/
structure CommitData where
  sha : String
  message : String
  author : String
  date : String
  files_changed : List String
  additions : Nat
  deletions : Nat
deriving DecidableEq, Repr

/-- The `for commit in repo.get_commits()` loop with its `commit_count`
cap of 50; `now` is `datetime.now().isoformat()`. -/
def fetchCommitsGo (now : String) : List RawCommit → Nat → List CommitData
  | [], _ => []
  | c :: cs, count =>
    if 50 ≤ count then []
    else if c.fetchOk then
      { sha := c.sha, message := c.message,
        author := match c.author with | some a => a.name | none => "Unknown",
        date := match c.author with | some a => a.date | none => now,
        files_changed := if c.files.isEmpty then [] else c.files.take 10,
        additions := c.additions, deletions := c.deletions } ::
        fetchCommitsGo now cs (count + 1)
    else fetchCommitsGo now cs count

/-- `RepoFetcher._fetch_commits`. -/
def fetch_commits (now : String) (raw : List RawCommit) : List CommitData :=
  fetchCommitsGo now raw 0

/-- One pull request as the GitHub API yields it.  `filesOk`/`commentsOk`
are the two inner `try` blocks (failure yields `[]`), `fetchOk` the outer
per-PR `try`. -/
structure RawPR where
  number : Nat
  title : String
  body : Option String
  state : String
  created_at : String
  merged_at : Option String
  user : Option String
  files : List String
  filesOk : Bool
  comments : List String
  commentsOk : Bool
  fetchOk : Bool
deriving DecidableEq, Repr

/-- One PR dict as `_fetch_prs` builds it. -/
structure PRData where
  number : Nat
  title : String
  body : String
  state : String
  created_at : String
  merged_at : Option String
  author : String
  files : List String
  comments : List String
deriving DecidableEq, Repr

/-- The `for pr in repo.get_pulls(...)` loop with its `pr_count` cap of
100. -/
def fetchPRsGo : List RawPR → Nat → List PRData
  | [], _ => []
  | p :: ps, count =>
    if 100 ≤ count then []
    else if p.fetchOk then
      { number := p.number, title := p.title,
        body := p.body.getD "",
        state := p.state, created_at := p.created_at,
        merged_at := p.merged_at,
        author := p.user.getD "Unknown",
        files := if p.filesOk then p.files.take 30 else [],
        comments := if p.commentsOk then p.comments.take 10 else [] } ::
        fetchPRsGo ps (count + 1)
    else fetchPRsGo ps count

/-- `RepoFetcher._fetch_prs`. -/
def fetch_prs (raw : List RawPR) : List PRData :=
  fetchPRsGo raw 0

/-- One entry of the repository contents listing: a file (with a flag
for the per-file `try`), a directory whose `get_contents` succeeds with
its children, or a directory whose listing raises and is skipped. -/
inductive GEntry where
  | file (path : String) (size : Nat) (content : String) (readOk : Bool)
  | dirOk (path : String) (children : List GEntry)
  | dirFail (path : String)
deriving Repr

/-- Weight of an entry for the worklist termination measure. -/
def gweight : GEntry → Nat
  | .file .. => 1
  | .dirFail _ => 1
  | .dirOk _ children => 1 + (children.attach.map fun c => gweight c.1).sum
decreasing_by
  have := List.sizeOf_lt_of_mem c.2
  simp
  omega

/-- Weight of a worklist. -/
def gweightList (l : List GEntry) : Nat := (l.map gweight).sum

theorem gweight_pos (e : GEntry) : 0 < gweight e := by
  cases e <;> simp [gweight]

theorem gweight_dirOk (p : String) (children : List GEntry) :
    gweight (.dirOk p children) = 1 + gweightList children := by
  rw [gweight, gweightList]
  congr 1
  rw [List.attach_map_coe]

/-- One file dict as `_fetch_files` builds it. -/
structure FileData where
  path : String
  content : String
  size : Nat
deriving DecidableEq, Repr

/-- Python `s.endswith(pat)`, character level. -/
def isSuf (pat s : List Char) : Bool :=
  isPre pat.reverse s.reverse

/-- Python `s.endswith(pat)` on strings. -/
def pyEndsWith (s pat : String) : Bool :=
  isSuf pat.data s.data

/-- `f.path.endswith(('.png', '.jpg', '.jpeg', '.gif', '.pdf', '.zip',
'.exe'))`. -/
def isBinaryPath (p : String) : Bool :=
  pyEndsWith p ".png" || pyEndsWith p ".jpg" || pyEndsWith p ".jpeg" ||
  pyEndsWith p ".gif" || pyEndsWith p ".pdf" || pyEndsWith p ".zip" ||
  pyEndsWith p ".exe"

/-- The `while contents and file_count < max_files` worklist loop of
`_fetch_files`: pop the front, push directory children at the back,
skip files over 100000 bytes, binary extensions, and failed reads. -/
def fetchFilesGo : List GEntry → Nat → List FileData
  | [], _ => []
  | e :: rest, count =>
    if 500 ≤ count then []
    else match e with
      | .dirOk _ children => fetchFilesGo (rest ++ children) count
      | .dirFail _ => fetchFilesGo rest count
      | .file p size content readOk =>
        if 100000 < size then fetchFilesGo rest count
        else if isBinaryPath p then fetchFilesGo rest count
        else if readOk then
          { path := p, content := content, size := size } ::
            fetchFilesGo rest (count + 1)
        else fetchFilesGo rest count
termination_by wl _ => gweightList wl
decreasing_by
  all_goals
    first
      | (simp [gweightList, gweight_dirOk]; omega)
      | (simp [gweightList, gweight]; try omega)

end RepoAnalyzer

namespace RepoAnalyzer

/-- `RepoFetcher._fetch_files`: `none` is the case where the root
`repo.get_contents("")` call raises (the outer `try` then returns the
empty accumulator). -/
def fetch_files : Option (List GEntry) → List FileData
  | none => []
  | some contents => fetchFilesGo contents 0

theorem fetchCommitsGo_length (now : String) (raw : List RawCommit) :
    ∀ count, (fetchCommitsGo now raw count).length ≤ 50 - count := by
  induction raw with
  | nil => intro count; simp [fetchCommitsGo]
  | cons c cs ih =>
    intro count
    rw [fetchCommitsGo]
    split
    · simp
    · split
      · have := ih (count + 1)
        simp only [List.length_cons]
        omega
      · exact ih count

theorem fetchCommitsGo_files (now : String) (raw : List RawCommit) :
    ∀ count c, c ∈ fetchCommitsGo now raw count →
      c.files_changed.length ≤ 10 := by
  induction raw with
  | nil => intro count c hc; simp [fetchCommitsGo] at hc
  | cons r rs ih =>
    intro count c hc
    rw [fetchCommitsGo] at hc
    split at hc
    · simp at hc
    · split at hc
      · rcases List.mem_cons.mp hc with hme | hmt
        · subst hme
          dsimp only
          split
          · simp
          · simpa using List.length_take_le 10 r.files
        · exact ih (count + 1) c hmt
      · exact ih count c hc

theorem fetchPRsGo_length (raw : List RawPR) :
    ∀ count, (fetchPRsGo raw count).length ≤ 100 - count := by
  induction raw with
  | nil => intro count; simp [fetchPRsGo]
  | cons p ps ih =>
    intro count
    rw [fetchPRsGo]
    split
    · simp
    · split
      · have := ih (count + 1)
        simp only [List.length_cons]
        omega
      · exact ih count

theorem fetchPRsGo_caps (raw : List RawPR) :
    ∀ count p, p ∈ fetchPRsGo raw count →
      p.files.length ≤ 30 ∧ p.comments.length ≤ 10 := by
  induction raw with
  | nil => intro count p hp; simp [fetchPRsGo] at hp
  | cons r rs ih =>
    intro count p hp
    rw [fetchPRsGo] at hp
    split at hp
    · simp at hp
    · split at hp
      · rcases List.mem_cons.mp hp with hme | hmt
        · subst hme
          constructor
          · dsimp only
            split
            · simpa using List.length_take_le 30 r.files
            · simp
          · dsimp only
            split
            · simpa using List.length_take_le 10 r.comments
            · simp
        · exact ih (count + 1) p hmt
      · exact ih count p hp

theorem fetchFilesGo_length (wl : List GEntry) (count : Nat) :
    (fetchFilesGo wl count).length ≤ 500 - count := by
  induction wl, count using fetchFilesGo.induct with
  | case1 count => simp [fetchFilesGo]
  | case2 e rest count hstop =>
    rw [fetchFilesGo.eq_def]
    simp [hstop]
  | case3 rest count hstop path children ih =>
    rw [fetchFilesGo.eq_def]
    simpa [hstop] using ih
  | case4 rest count hstop path ih =>
    rw [fetchFilesGo.eq_def]
    simpa [hstop] using ih
  | case5 rest count hstop p size content readOk hbig ih =>
    rw [fetchFilesGo.eq_def]
    simpa [hstop, hbig] using ih
  | case6 rest count hstop p size content readOk hbig hbin ih =>
    rw [fetchFilesGo.eq_def]
    simpa [hstop, hbig, hbin] using ih
  | case7 rest count hstop p size content hbig hbin ih =>
    rw [fetchFilesGo.eq_def]
    simp only [hstop, hbig, hbin, if_false, if_true, List.length_cons]
    simp
    omega
  | case8 rest count hstop p size content readOk hbig hbin hok ih =>
    rw [fetchFilesGo.eq_def]
    simpa [hstop, hbig, hbin, hok] using ih

theorem fetchFilesGo_size (wl : List GEntry) (count : Nat) :
    ∀ f ∈ fetchFilesGo wl count, f.size ≤ 100000 := by
  induction wl, count using fetchFilesGo.induct with
  | case1 count => simp [fetchFilesGo]
  | case2 e rest count hstop =>
    rw [fetchFilesGo.eq_def]
    simp [hstop]
  | case3 rest count hstop path children ih =>
    rw [fetchFilesGo.eq_def]
    simpa [hstop] using ih
  | case4 rest count hstop path ih =>
    rw [fetchFilesGo.eq_def]
    simpa [hstop] using ih
  | case5 rest count hstop p size content readOk hbig ih =>
    rw [fetchFilesGo.eq_def]
    simpa [hstop, hbig] using ih
  | case6 rest count hstop p size content readOk hbig hbin ih =>
    rw [fetchFilesGo.eq_def]
    simpa [hstop, hbig, hbin] using ih
  | case7 rest count hstop p size content hbig hbin ih =>
    rw [fetchFilesGo.eq_def]
    intro f hf
    simp only [hstop, hbig, hbin, if_false, if_true] at hf
    simp at hf
    rcases hf with hfe | hft
    · subst hfe
      simp
      omega
    · exact ih f hft
  | case8 rest count hstop p size content readOk hbig hbin hok ih =>
    rw [fetchFilesGo.eq_def]
    simpa [hstop, hbig, hbin, hok] using ih

end RepoAnalyzer

namespace RepoAnalyzer

/-- Keys of the three parallel fetch tasks. -/
inductive FetchKey where
  | commits
  | pull_requests
  | files
deriving DecidableEq, Repr

/-- The outcome each `future.result()` call would deliver: a list, or the
exception it raises. -/
structure TaskOutcomes where
  commits : Except String (List CommitData)
  pull_requests : Except String (List PRData)
  files : Except String (List FileData)

/-- The `results` dict as it fills up while futures complete. -/
structure FetchResults where
  commits : Option (List CommitData)
  pull_requests : Option (List PRData)
  files : Option (List FileData)
deriving DecidableEq

/-- The dict before any future completes. -/
def emptyResults : FetchResults :=
  { commits := none, pull_requests := none, files := none }

/-- `results[key] = future.result()` with the per-task
`except: results[key] = []` handler. -/
def exceptToList : Except String (List α) → List α
  | .ok l => l
  | .error _ => []

/-- Processing one completed future in the `as_completed` loop. -/
def applyCompleted (o : TaskOutcomes) (r : FetchResults) : FetchKey → FetchResults
  | .commits => { r with commits := some (exceptToList o.commits) }
  | .pull_requests => { r with pull_requests := some (exceptToList o.pull_requests) }
  | .files => { r with files := some (exceptToList o.files) }

/-- `RepoFetcher.fetch_repo_data`: fold over the completion order that
`as_completed` happens to yield. -/
def fetch_repo_data (o : TaskOutcomes) (order : List FetchKey) : FetchResults :=
  order.foldl (applyCompleted o) emptyResults

theorem foldl_applyCompleted_commits (o : TaskOutcomes) (order : List FetchKey) :
    ∀ r, (order.foldl (applyCompleted o) r).commits =
      if FetchKey.commits ∈ order then some (exceptToList o.commits) else r.commits := by
  induction order with
  | nil => intro r; simp
  | cons k ks ih =>
    intro r
    rw [List.foldl_cons, ih]
    cases k <;> by_cases hm : FetchKey.commits ∈ ks <;>
      simp_all [applyCompleted]

theorem foldl_applyCompleted_prs (o : TaskOutcomes) (order : List FetchKey) :
    ∀ r, (order.foldl (applyCompleted o) r).pull_requests =
      if FetchKey.pull_requests ∈ order then some (exceptToList o.pull_requests)
      else r.pull_requests := by
  induction order with
  | nil => intro r; simp
  | cons k ks ih =>
    intro r
    rw [List.foldl_cons, ih]
    cases k <;> by_cases hm : FetchKey.pull_requests ∈ ks <;>
      simp_all [applyCompleted]

theorem foldl_applyCompleted_files (o : TaskOutcomes) (order : List FetchKey) :
    ∀ r, (order.foldl (applyCompleted o) r).files =
      if FetchKey.files ∈ order then some (exceptToList o.files) else r.files := by
  induction order with
  | nil => intro r; simp
  | cons k ks ih =>
    intro r
    rw [List.foldl_cons, ih]
    cases k <;> by_cases hm : FetchKey.files ∈ ks <;>
      simp_all [applyCompleted]

end RepoAnalyzer

/-- C3: the fetcher's per-category caps hold for every repository:
at most 50 commits each listing at most 10 changed files, at most 100
pull requests each with at most 30 file names and at most 10 comments,
and at most 500 files each of size at most 100000 bytes. -/
theorem fetcher_item_caps (now : String) (rawCommits : List RepoAnalyzer.RawCommit)
    (rawPRs : List RepoAnalyzer.RawPR) (root : Option (List RepoAnalyzer.GEntry)) :
    (RepoAnalyzer.fetch_commits now rawCommits).length ≤ 50 ∧
    (∀ c ∈ RepoAnalyzer.fetch_commits now rawCommits,
      c.files_changed.length ≤ 10) ∧
    (RepoAnalyzer.fetch_prs rawPRs).length ≤ 100 ∧
    (∀ p ∈ RepoAnalyzer.fetch_prs rawPRs,
      p.files.length ≤ 30 ∧ p.comments.length ≤ 10) ∧
    (RepoAnalyzer.fetch_files root).length ≤ 500 ∧
    (∀ f ∈ RepoAnalyzer.fetch_files root, f.size ≤ 100000) := by
  refine ⟨?_, ?_, ?_, ?_, ?_, ?_⟩
  · simpa using RepoAnalyzer.fetchCommitsGo_length now rawCommits 0
  · exact fun c hc => RepoAnalyzer.fetchCommitsGo_files now rawCommits 0 c hc
  · simpa using RepoAnalyzer.fetchPRsGo_length rawPRs 0
  · exact fun p hp => RepoAnalyzer.fetchPRsGo_caps rawPRs 0 p hp
  · cases root with
    | none => simp [RepoAnalyzer.fetch_files]
    | some contents =>
      simpa [RepoAnalyzer.fetch_files] using
        RepoAnalyzer.fetchFilesGo_length contents 0
  · cases root with
    | none => simp [RepoAnalyzer.fetch_files]
    | some contents =>
      simpa [RepoAnalyzer.fetch_files] using
        RepoAnalyzer.fetchFilesGo_size contents 0

namespace RepoAnalyzer

/-- A successfully fetched raw commit. -/
def rawCommit0 : RawCommit :=
  { sha := "abc1234", message := "fix", author := some { name := "alice", date := "2024-01-02" },
    files := ["a.py", "b.py"], additions := 3, deletions := 1, fetchOk := true }

/-- The commit dict `_fetch_commits` builds from `rawCommit0`. -/
def commitOut0 : CommitData :=
  { sha := "abc1234", message := "fix", author := "alice", date := "2024-01-02",
    files_changed := ["a.py", "b.py"], additions := 3, deletions := 1 }

/-- A successfully fetched raw pull request. -/
def rawPR0 : RawPR :=
  { number := 7, title := "t", body := none, state := "open",
    created_at := "2024-02-03", merged_at := none, user := none,
    files := ["f1"], filesOk := true, comments := [], commentsOk := true,
    fetchOk := true }

/-- The PR dict `_fetch_prs` builds from `rawPR0`. -/
def prOut0 : PRData :=
  { number := 7, title := "t", body := "", state := "open",
    created_at := "2024-02-03", merged_at := none, author := "Unknown",
    files := ["f1"], comments := [] }

/-- A small readable text file in the root listing. -/
def entry0 : GEntry := .file "a.txt" 5 "hello" true

/-- The file dict `_fetch_files` builds from `entry0`. -/
def fileOut0 : FileData := { path := "a.txt", content := "hello", size := 5 }

theorem fetch_files_entry0 : fetch_files (some [entry0]) = [fileOut0] := by
  show fetchFilesGo [entry0] 0 = [fileOut0]
  rw [fetchFilesGo.eq_def]
  norm_num [entry0, isBinaryPath, pyEndsWith, isSuf, isPre]
  rw [fetchFilesGo.eq_def]
  simp [fileOut0]
  rw [fetchFilesGo.eq_def]

end RepoAnalyzer

/-- Witness for C3 at concrete one-element inputs. -/
theorem fetcher_item_caps_witness :
    (RepoAnalyzer.fetch_commits "2024-05-05" [RepoAnalyzer.rawCommit0]).length ≤ 50 ∧
    RepoAnalyzer.commitOut0.files_changed.length ≤ 10 ∧
    (RepoAnalyzer.fetch_prs [RepoAnalyzer.rawPR0]).length ≤ 100 ∧
    (RepoAnalyzer.prOut0.files.length ≤ 30 ∧ RepoAnalyzer.prOut0.comments.length ≤ 10) ∧
    (RepoAnalyzer.fetch_files (some [RepoAnalyzer.entry0])).length ≤ 500 ∧
    RepoAnalyzer.fileOut0.size ≤ 100000 := by
  have h := fetcher_item_caps "2024-05-05" [RepoAnalyzer.rawCommit0]
    [RepoAnalyzer.rawPR0] (some [RepoAnalyzer.entry0])
  refine ⟨h.1, ?_, h.2.2.1, ?_, h.2.2.2.2.1, ?_⟩
  · exact h.2.1 RepoAnalyzer.commitOut0 (by decide)
  · exact h.2.2.2.1 RepoAnalyzer.prOut0 (by decide)
  · exact h.2.2.2.2.2 RepoAnalyzer.fileOut0
      (by rw [RepoAnalyzer.fetch_files_entry0]; exact List.mem_singleton.mpr rfl)

/-- C7: the three fetch tasks fail independently — whatever completion
order `as_completed` yields, as long as each of the three futures is
processed, the returned dict has all three keys, a failed task maps to
`[]` (`exceptToList` of its error), and every other key keeps its own
fetched list, unaffected by the failure. -/
theorem fetch_tasks_fail_independently (o : RepoAnalyzer.TaskOutcomes)
    (order : List RepoAnalyzer.FetchKey)
    (hc : RepoAnalyzer.FetchKey.commits ∈ order)
    (hp : RepoAnalyzer.FetchKey.pull_requests ∈ order)
    (hf : RepoAnalyzer.FetchKey.files ∈ order) :
    RepoAnalyzer.fetch_repo_data o order =
      { commits := some (RepoAnalyzer.exceptToList o.commits),
        pull_requests := some (RepoAnalyzer.exceptToList o.pull_requests),
        files := some (RepoAnalyzer.exceptToList o.files) } := by
  unfold RepoAnalyzer.fetch_repo_data
  have h1 := RepoAnalyzer.foldl_applyCompleted_commits o order RepoAnalyzer.emptyResults
  have h2 := RepoAnalyzer.foldl_applyCompleted_prs o order RepoAnalyzer.emptyResults
  have h3 := RepoAnalyzer.foldl_applyCompleted_files o order RepoAnalyzer.emptyResults
  rw [if_pos hc] at h1
  rw [if_pos hp] at h2
  rw [if_pos hf] at h3
  cases hres : List.foldl (RepoAnalyzer.applyCompleted o) RepoAnalyzer.emptyResults order
  rw [hres] at h1 h2 h3
  simp_all

/-- Witness for C7: one failing task (commits) and one concrete
completion order covering all three keys. -/
theorem fetch_tasks_fail_independently_witness :
    RepoAnalyzer.fetch_repo_data
      { commits := .error "boom",
        pull_requests := .ok [RepoAnalyzer.prOut0],
        files := .ok [] }
      [RepoAnalyzer.FetchKey.files, RepoAnalyzer.FetchKey.commits,
        RepoAnalyzer.FetchKey.pull_requests] =
      { commits := some [],
        pull_requests := some [RepoAnalyzer.prOut0],
        files := some [] } := by
  rw [fetch_tasks_fail_independently _ _ (by decide) (by decide) (by decide)]
  rfl

namespace RepoAnalyzer

/-! ## src/processor.py — JavaScript chunker and document building

`_chunk_javascript_code` consults
`re.search(r'(function\s+\w+|const\s+\w+\s*=\s*.*=>|\w+\s*\(.*\)\s*{)', line)`.
The three alternatives are implemented as deterministic scans; the
character classes involved (`\w`, `\s`, literals) are disjoint, so
maximal munch agrees with the regex engine's backtracking (ASCII `\w`;
the repository under analysis is assumed ASCII-identifier code). -/

/-- Python regex `\w` (ASCII). -/
def isWordChar (c : Char) : Bool := c.isAlphanum || c == '_'

/-- Does `pat` occur as a contiguous subsequence? -/
def containsSeq (pat : List Char) : List Char → Bool
  | [] => isPre pat []
  | c :: rest => isPre pat (c :: rest) || containsSeq pat rest

/-- `function\s+\w+` anchored at the start of `s`. -/
def matchAlt1 (s : List Char) : Bool :=
  isPre "function".data s &&
    (match s.drop 8 with
     | [] => false
     | c :: cs =>
       pySpaceChar c &&
         (match (c :: cs).dropWhile pySpaceChar with
          | [] => false
          | d :: _ => isWordChar d))

/-- `const\s+\w+\s*=\s*.*=>` anchored at the start of `s`. -/
def matchAlt2 (s : List Char) : Bool :=
  isPre "const".data s &&
    (match s.drop 5 with
     | [] => false
     | c :: cs =>
       pySpaceChar c &&
         (match (c :: cs).dropWhile pySpaceChar with
          | [] => false
          | d :: ds =>
            isWordChar d &&
              (match ((d :: ds).dropWhile isWordChar).dropWhile pySpaceChar with
               | '=' :: r5 => containsSeq "=>".data r5
               | _ => false)))

/-- A `)` followed (after optional whitespace) by `{`, anywhere. -/
def closeParenBrace : List Char → Bool
  | [] => false
  | ')' :: rest =>
    (match rest.dropWhile pySpaceChar with
     | '\x7b' :: _ => true
     | _ => false) || closeParenBrace rest
  | _ :: rest => closeParenBrace rest

/-- `\w+\s*\(.*\)\s*{` anchored at the start of `s`. -/
def matchAlt3 (s : List Char) : Bool :=
  match s with
  | [] => false
  | c :: _ =>
    isWordChar c &&
      (match (s.dropWhile isWordChar).dropWhile pySpaceChar with
       | '(' :: r2 => closeParenBrace r2
       | _ => false)

/-- `re.search` of the function-declaration pattern: some start position
matches one of the three alternatives. -/
def jsFuncDecl : List Char → Bool
  | [] => false
  | c :: rest =>
    matchAlt1 (c :: rest) || matchAlt2 (c :: rest) || matchAlt3 (c :: rest) ||
      jsFuncDecl rest

/-- `line.count(ch)`. -/
def countChar (ch : Char) (l : List Char) : Nat :=
  (l.filter (fun c => c == ch)).length

/-- Loop state of `_chunk_javascript_code`. -/
structure JsChunkState where
  chunks : List (List Char)
  current : List (List Char)
  size : Nat
  braceCount : Int
  inFunction : Bool
deriving Repr

/-- One iteration of the `for line in lines` loop of
`_chunk_javascript_code`. -/
def jsChunkStep (st : JsChunkState) (line : List Char) : JsChunkState :=
  let lineSize := line.length + 1
  let st1 : JsChunkState :=
    if jsFuncDecl line then { st with inFunction := true } else st
  let bc : Int :=
    st1.braceCount + (countChar '\x7b' line : Int) - (countChar '\x7d' line : Int)
  let st2 : JsChunkState := { st1 with braceCount := bc }
  let st3 : JsChunkState :=
    if st2.size + lineSize > chunk_size ∧ bc = 0 ∧ st2.inFunction = false then
      if st2.current ≠ [] then
        let overlap := keepOverlap st2.current
        { st2 with chunks := st2.chunks ++ [joinNL st2.current],
                   current := overlap, size := sizeOfLines overlap }
      else st2
    else st2
  let st4 : JsChunkState := { st3 with current := st3.current ++ [line],
                                       size := st3.size + lineSize }
  if st4.braceCount = 0 then { st4 with inFunction := false } else st4

/-- `RepoProcessor._chunk_javascript_code` over character lists. -/
def chunk_javascript_code_chars (cs : List Char) : List (List Char) :=
  let final := (splitNL cs).foldl jsChunkStep
    { chunks := [], current := [], size := 0, braceCount := 0, inFunction := false }
  final.chunks ++ (if final.current ≠ [] then [joinNL final.current] else [])

/-- `RepoProcessor._chunk_javascript_code`. -/
def chunk_javascript_code (content : String) : List String :=
  (chunk_javascript_code_chars content.data).map String.mk

/-- The extension dispatch of `_smart_chunk_code`. -/
def smart_chunk_chunks (content path : String) : List String :=
  if pyEndsWith path ".py" then chunk_python_code content
  else if pyEndsWith path ".js" || pyEndsWith path ".ts" ||
      pyEndsWith path ".jsx" || pyEndsWith path ".tsx" then
    chunk_javascript_code content
  else chunk_generic_text content

/-- One contextualized chunk with its metadata, as `_smart_chunk_code`
returns it. -/
structure ChunkDoc where
  text : String
  chunk_index : Nat
  total_chunks : Nat
deriving DecidableEq, Repr

/-- `RepoProcessor._smart_chunk_code`: enumerate the chunks and prefix
each with the file-path context line. -/
def smart_chunk_code (content path : String) : List ChunkDoc :=
  let chunks := smart_chunk_chunks content path
  chunks.enum.map fun p =>
    { text := "File: " ++ path ++ "\n\n" ++ p.2,
      chunk_index := p.1, total_chunks := chunks.length }

/-- Python truthiness of `pr.get('merged_at')`. -/
def optStrTruthy : Option String → Bool
  | none => false
  | some s => !(s == "")

/-- `RepoProcessor._create_commit_document`. -/
def create_commit_document (c : CommitData) : String :=
  let base := "Commit by " ++ c.author ++ " on " ++ c.date ++ "\n\n"
    ++ "Message: " ++ c.message ++ "\n\n"
  let withFiles :=
    if c.files_changed.isEmpty then base
    else
      let fl := base ++ "Files changed (" ++ pyIntStr c.files_changed.length ++ "):\n"
        ++ String.intercalate "\n"
            ((c.files_changed.take 20).map (fun f => "  - " ++ f))
      if c.files_changed.length > 20 then
        fl ++ "\n  ... and " ++ pyIntStr (c.files_changed.length - 20) ++ " more files"
      else fl
  withFiles ++ "\n\nStats: +" ++ pyIntStr c.additions ++ " -" ++ pyIntStr c.deletions

/-- `RepoProcessor._create_pr_document`. -/
def create_pr_document (p : PRData) : String :=
  let d1 := "Pull Request #" ++ pyIntStr p.number ++ ": " ++ p.title ++ "\n\n"
    ++ "Author: " ++ p.author ++ "\n"
    ++ "State: " ++ p.state ++ "\n"
    ++ "Created: " ++ p.created_at ++ "\n"
  let d2 :=
    if optStrTruthy p.merged_at then d1 ++ "Merged: " ++ p.merged_at.getD "" ++ "\n"
    else d1
  let d3 := d2 ++ "\nDescription:\n" ++ p.body ++ "\n\n"
  let d4 :=
    if p.files.isEmpty then d3
    else
      let fl := d3 ++ "Files changed (" ++ pyIntStr p.files.length ++ "):\n"
        ++ String.intercalate "\n" ((p.files.take 30).map (fun f => "  - " ++ f))
      if p.files.length > 30 then
        fl ++ "\n  ... and " ++ pyIntStr (p.files.length - 30) ++ " more files"
      else fl
  if p.comments.isEmpty then d4
  else
    (p.comments.take 5).foldl
      (fun acc comment =>
        acc ++ "\n" ++ String.mk (comment.data.take 300)
          ++ (if comment.length > 300 then "..." else "") ++ "\n")
      (d4 ++ "\n\nComments (" ++ pyIntStr p.comments.length ++ "):\n")

/-- Metadata dict attached to a stored document. -/
inductive DocMeta where
  | commitMeta (sha date author : String) (additions deletions : Nat)
  | prMeta (number : Nat) (state date author title : String)
  | codeMeta (file_path : String) (chunk_index total_chunks file_size : Nat)
deriving DecidableEq, Repr

/-- One document as handed to `collection.add`. -/
structure Entry where
  doc : String
  meta : DocMeta
  id : String
deriving DecidableEq, Repr

/-- The `repo_data` dict as the processor consumes it. -/
structure RepoData where
  commits : List CommitData
  pull_requests : List PRData
  files : List FileData
deriving Repr

/-- `f"commit_{id_counter}"`. -/
def commitId (i : Nat) : String := "commit_" ++ pyIntStr i

/-- `f"pr_{id_counter}"`. -/
def prId (i : Nat) : String := "pr_" ++ pyIntStr i

/-- `f"code_{id_counter}_{chunk_index}"`. -/
def codeId (k i : Nat) : String :=
  "code_" ++ pyIntStr k ++ "_" ++ pyIntStr i

/-- The commit section of the documents/metadatas/ids lists
(`id_counter` runs from 0). -/
def commitEntries (cs : List CommitData) : List Entry :=
  cs.enum.map fun p =>
    { doc := create_commit_document p.2,
      meta := .commitMeta p.2.sha p.2.date p.2.author p.2.additions p.2.deletions,
      id := commitId p.1 }

/-- The PR section (`id_counter` continues from `start`). -/
def prEntries (start : Nat) (ps : List PRData) : List Entry :=
  ps.enum.map fun p =>
    { doc := create_pr_document p.2,
      meta := .prMeta p.2.number p.2.state p.2.created_at p.2.author p.2.title,
      id := prId (start + p.1) }

/-- The code section: one `id_counter` value per file, one entry per
chunk. -/
def fileEntries (start : Nat) (fs : List FileData) : List Entry :=
  (fs.enum.map fun p =>
    (smart_chunk_code p.2.content p.2.path).map fun cd =>
      { doc := cd.text,
        meta := .codeMeta p.2.path cd.chunk_index cd.total_chunks p.2.size,
        id := codeId (start + p.1) cd.chunk_index }).flatten

/-- The documents/metadatas/ids triple that `process_and_store` builds
before touching the store, flattened into one entry list. -/
def buildEntries (rd : RepoData) : List Entry :=
  commitEntries rd.commits
    ++ prEntries rd.commits.length rd.pull_requests
    ++ fileEntries (rd.commits.length + rd.pull_requests.length) rd.files

/-- Python `repo_name.replace('/', '_')` (single-character pattern, so a
per-character map). -/
def pyReplaceSlash (s : String) : String :=
  String.mk (s.data.map (fun c => if c = '/' then '_' else c))

/-- `f"./chroma_db_{repo_name.replace('/', '_')}"`. -/
def persistDir (repo_name : String) : String :=
  "./chroma_db_" ++ pyReplaceSlash repo_name

/-- The batched `collection.add` loop (`batch_size = 100`): appends the
entries in slices of 100 to the collection. -/
def addChunks : List Entry → List Entry → List Entry
  | [], coll => coll
  | e :: es, coll => addChunks ((e :: es).drop 100) (coll ++ (e :: es).take 100)
termination_by es _ => es.length
decreasing_by simp; omega

/-- The embedded vector stores on disk, one per persist directory. -/
structure VectorStores where
  dbs : String → Option (List Entry)

/-- `RepoProcessor.process_and_store`: build the documents, delete any
existing database directory for the repository, create a fresh
collection, and add the documents in batches of 100.  (The per-batch
`except` fallback re-adds documents individually; additions themselves
are modelled as succeeding, since their only failure source is the
external embedding backend.) -/
def process_and_store (rd : RepoData) (repo_name : String) (fs : VectorStores) :
    VectorStores :=
  let entries := buildEntries rd
  let fresh : List Entry := []
  let final := addChunks entries fresh
  { dbs := fun d => if d = persistDir repo_name then some final else fs.dbs d }

theorem addChunks_eq : ∀ es coll : List Entry, addChunks es coll = coll ++ es := by
  intro es coll
  induction es, coll using addChunks.induct with
  | case1 coll => simp [addChunks]
  | case2 e es coll ih =>
    rw [addChunks, ih, List.append_assoc, List.take_append_drop]

end RepoAnalyzer

/-- C6: indexing is delete-and-recreate, never incremental.  Whatever
store state existed before, after `process_and_store` the repository's
persist directory holds exactly the documents derived from `repo_data`;
two runs from different prior states agree; and no other directory is
touched. -/
theorem process_and_store_delete_recreate (rd : RepoAnalyzer.RepoData)
    (repo_name : String) (fs1 fs2 : RepoAnalyzer.VectorStores) :
    ((RepoAnalyzer.process_and_store rd repo_name fs1).dbs
        (RepoAnalyzer.persistDir repo_name) =
      some (RepoAnalyzer.buildEntries rd)) ∧
    ((RepoAnalyzer.process_and_store rd repo_name fs1).dbs
        (RepoAnalyzer.persistDir repo_name) =
      (RepoAnalyzer.process_and_store rd repo_name fs2).dbs
        (RepoAnalyzer.persistDir repo_name)) ∧
    (∀ d, d ≠ RepoAnalyzer.persistDir repo_name →
      (RepoAnalyzer.process_and_store rd repo_name fs1).dbs d = fs1.dbs d) := by
  unfold RepoAnalyzer.process_and_store
  refine ⟨?_, ?_, ?_⟩
  · simp [RepoAnalyzer.addChunks_eq]
  · simp
  · intro d hd
    simp [hd]

namespace RepoAnalyzer

/-- An empty store for the C6 witness. -/
def noStores : VectorStores := { dbs := fun _ => none }

/-- A tiny repo_data for the C6 witness. -/
def rdEmpty : RepoData := { commits := [], pull_requests := [], files := [] }

end RepoAnalyzer

/-- Witness for C6 at a concrete repository name and prior state. -/
theorem process_and_store_delete_recreate_witness :
    (RepoAnalyzer.process_and_store RepoAnalyzer.rdEmpty "o/r"
        RepoAnalyzer.noStores).dbs (RepoAnalyzer.persistDir "o/r") =
      some (RepoAnalyzer.buildEntries RepoAnalyzer.rdEmpty) ∧
    (RepoAnalyzer.process_and_store RepoAnalyzer.rdEmpty "o/r"
        RepoAnalyzer.noStores).dbs "elsewhere" =
      RepoAnalyzer.noStores.dbs "elsewhere" := by
  constructor
  · exact (process_and_store_delete_recreate RepoAnalyzer.rdEmpty "o/r"
      RepoAnalyzer.noStores RepoAnalyzer.noStores).1
  · exact (process_and_store_delete_recreate RepoAnalyzer.rdEmpty "o/r"
      RepoAnalyzer.noStores RepoAnalyzer.noStores).2.2 "elsewhere" (by decide)

namespace RepoAnalyzer

/-! ## Document id distinctness (src/processor.py `process_and_store`) -/

theorem str_append_left_cancel {s t1 t2 : String} (h : s ++ t1 = s ++ t2) :
    t1 = t2 := by
  have hd := congrArg String.data h
  rw [String.data_append, String.data_append] at hd
  have := List.append_cancel_left hd
  have hmk := congrArg String.mk this
  rwa [string_mk_data, string_mk_data] at hmk

/-- Splitting a char list at an underscore is unambiguous when neither
prefix contains one. -/
theorem underscore_split (a : List Char) :
    ∀ b a' b' : List Char, (∀ c ∈ a, c ≠ '_') → (∀ c ∈ a', c ≠ '_') →
      a ++ '_' :: b = a' ++ '_' :: b' → a = a' ∧ b = b' := by
  induction a with
  | nil =>
    intro b a' b' _ ha' h
    cases a' with
    | nil => simpa using h
    | cons x xs =>
      exfalso
      simp only [List.nil_append, List.cons_append, List.cons.injEq] at h
      exact ha' x (by simp) h.1.symm
  | cons x xs ih =>
    intro b a' b' ha ha' h
    cases a' with
    | nil =>
      exfalso
      simp only [List.nil_append, List.cons_append, List.cons.injEq] at h
      exact ha x (by simp) h.1
    | cons y ys =>
      simp only [List.cons_append, List.cons.injEq] at h
      obtain ⟨rfl, h2⟩ := h
      have := ih b ys b' (fun c hc => ha c (by simp [hc]))
        (fun c hc => ha' c (by simp [hc])) h2
      exact ⟨by simp [this.1], this.2⟩

theorem commitId_inj {i j : Nat} (h : commitId i = commitId j) : i = j :=
  pyIntStr_inj (str_append_left_cancel h)

theorem prId_inj {i j : Nat} (h : prId i = prId j) : i = j :=
  pyIntStr_inj (str_append_left_cancel h)

theorem codeId_data (k i : Nat) :
    (codeId k i).data =
      "code_".data ++ ((pyIntStr k).data ++ '_' :: (pyIntStr i).data) := by
  unfold codeId
  simp [String.data_append]

theorem codeId_inj {k i k' i' : Nat} (h : codeId k i = codeId k' i') :
    k = k' ∧ i = i' := by
  have hd := congrArg String.data h
  rw [codeId_data, codeId_data] at hd
  have hsplit := underscore_split (pyIntStr k).data (pyIntStr i).data
    (pyIntStr k').data (pyIntStr i').data
    (pyIntStr_no_underscore k) (pyIntStr_no_underscore k')
    (List.append_cancel_left hd)
  constructor
  · apply pyIntStr_inj
    have := congrArg String.mk hsplit.1
    rwa [string_mk_data, string_mk_data] at this
  · apply pyIntStr_inj
    have := congrArg String.mk hsplit.2
    rwa [string_mk_data, string_mk_data] at this

theorem commitId_ne_prId (i j : Nat) : commitId i ≠ prId j := by
  intro h
  have hd := congrArg String.data h
  rw [commitId, prId, String.data_append, String.data_append] at hd
  have h1 : ("commit_" : String).data = ['c','o','m','m','i','t','_'] := rfl
  have h2 : ("pr_" : String).data = ['p','r','_'] := rfl
  rw [h1, h2] at hd
  simp only [List.cons_append, List.cons.injEq] at hd
  exact absurd hd.1 (by decide)

theorem commitId_ne_codeId (i k m : Nat) : commitId i ≠ codeId k m := by
  intro h
  have hd := congrArg String.data h
  rw [commitId, codeId] at hd
  have := congrArg String.data h
  rw [commitId, String.data_append, codeId_data] at this
  have h1 : ("commit_" : String).data = ['c','o','m','m','i','t','_'] := rfl
  have h2 : ("code_" : String).data = ['c','o','d','e','_'] := rfl
  rw [h1, h2] at this
  simp only [List.cons_append, List.cons.injEq] at this
  exact absurd this.2.2.1 (by decide)

theorem prId_ne_codeId (i k m : Nat) : prId i ≠ codeId k m := by
  intro h
  have hd := congrArg String.data h
  rw [prId, String.data_append, codeId_data] at hd
  have h1 : ("pr_" : String).data = ['p','r','_'] := rfl
  have h2 : ("code_" : String).data = ['c','o','d','e','_'] := rfl
  rw [h1, h2] at hd
  simp only [List.cons_append, List.cons.injEq] at hd
  exact absurd hd.1 (by decide)

end RepoAnalyzer

namespace RepoAnalyzer

theorem enum_map_fst_comp {α β : Type} (l : List α) (f : Nat → β) :
    l.enum.map (fun p => f p.1) = (List.range l.length).map f := by
  rw [show (fun p : Nat × α => f p.1) = f ∘ Prod.fst from rfl, ← List.map_map,
    List.enum_map_fst]

theorem commitEntries_ids (cs : List CommitData) :
    (commitEntries cs).map Entry.id = (List.range cs.length).map commitId := by
  unfold commitEntries
  rw [List.map_map]
  exact enum_map_fst_comp cs commitId

theorem prEntries_ids (start : Nat) (ps : List PRData) :
    (prEntries start ps).map Entry.id =
      (List.range ps.length).map (fun j => prId (start + j)) := by
  unfold prEntries
  rw [List.map_map]
  exact enum_map_fst_comp ps (fun j => prId (start + j))

theorem smart_chunk_code_indices (content path : String) :
    (smart_chunk_code content path).map (fun cd => cd.chunk_index) =
      List.range (smart_chunk_chunks content path).length := by
  unfold smart_chunk_code
  rw [List.map_map]
  exact List.enum_map_fst _

theorem fileEntries_ids (start : Nat) (fs : List FileData) :
    (fileEntries start fs).map Entry.id =
      (fs.enum.map fun p =>
        (List.range (smart_chunk_chunks p.2.content p.2.path).length).map
          (fun i => codeId (start + p.1) i)).flatten := by
  unfold fileEntries
  rw [List.map_flatten, List.map_map]
  congr 1
  apply List.map_congr_left
  intro p hp
  rw [Function.comp_apply, List.map_map]
  have h2 := smart_chunk_code_indices p.2.content p.2.path
  have h3 : ((smart_chunk_code p.2.content p.2.path).map
      (fun cd => cd.chunk_index)).map (fun i => codeId (start + p.1) i) =
      (List.range (smart_chunk_chunks p.2.content p.2.path).length).map
        (fun i => codeId (start + p.1) i) := by
    rw [h2]
  exact (List.map_map (fun i => codeId (start + p.1) i)
    (fun cd : ChunkDoc => cd.chunk_index)
    (smart_chunk_code p.2.content p.2.path)).symm.trans h3

end RepoAnalyzer

namespace RepoAnalyzer

theorem commitId_injective : Function.Injective commitId :=
  fun _ _ h => commitId_inj h

theorem codeId_left_injective (k : Nat) :
    Function.Injective (fun i => codeId k i) :=
  fun _ _ h => (codeId_inj h).2

theorem commitIds_nodup (n : Nat) : ((List.range n).map commitId).Nodup :=
  (List.nodup_range n).map commitId_injective

theorem prIds_nodup (s n : Nat) :
    ((List.range n).map (fun j => prId (s + j))).Nodup :=
  (List.nodup_range n).map (fun _ _ h => by
    have := prId_inj h
    omega)

theorem codeIds_nodup (s : Nat) (fs : List FileData) :
    ((fs.enum.map fun p =>
      (List.range (smart_chunk_chunks p.2.content p.2.path).length).map
        (fun i => codeId (s + p.1) i)).flatten).Nodup := by
  rw [List.nodup_flatten]
  constructor
  · intro l hl
    rw [List.mem_map] at hl
    obtain ⟨p, -, rfl⟩ := hl
    exact (List.nodup_range _).map (codeId_left_injective (s + p.1))
  · rw [List.pairwise_map]
    have hfst : (fs.enum.map Prod.fst).Nodup := by
      rw [List.enum_map_fst]
      exact List.nodup_range _
    have hpw : fs.enum.Pairwise (fun a b => a.1 ≠ b.1) :=
      List.pairwise_map.mp hfst
    refine hpw.imp ?_
    intro a b hne x hxa hxb
    rw [List.mem_map] at hxa hxb
    obtain ⟨i, -, rfl⟩ := hxa
    obtain ⟨j, -, hj⟩ := hxb
    have := (codeId_inj hj.symm).1
    omega

/-- The ids handed to the vector store are pairwise distinct. -/
theorem buildEntries_ids_nodup (rd : RepoData) :
    ((buildEntries rd).map Entry.id).Nodup := by
  unfold buildEntries
  rw [List.map_append, List.map_append, commitEntries_ids, prEntries_ids,
    fileEntries_ids, List.append_assoc, List.nodup_append]
  refine ⟨commitIds_nodup _, ?_, ?_⟩
  · rw [List.nodup_append]
    refine ⟨prIds_nodup _ _, codeIds_nodup _ _, ?_⟩
    intro a ha hb
    rw [List.mem_map] at ha
    obtain ⟨j, -, rfl⟩ := ha
    rw [List.mem_flatten] at hb
    obtain ⟨l, hl, hal⟩ := hb
    rw [List.mem_map] at hl
    obtain ⟨p, -, rfl⟩ := hl
    rw [List.mem_map] at hal
    obtain ⟨i, -, hi⟩ := hal
    exact prId_ne_codeId _ _ _ hi.symm
  · intro a ha hb
    rw [List.mem_map] at ha
    obtain ⟨i, -, rfl⟩ := ha
    rw [List.mem_append] at hb
    rcases hb with hb | hb
    · rw [List.mem_map] at hb
      obtain ⟨j, -, hj⟩ := hb
      exact commitId_ne_prId _ _ hj.symm
    · rw [List.mem_flatten] at hb
      obtain ⟨l, hl, hal⟩ := hb
      rw [List.mem_map] at hl
      obtain ⟨p, -, rfl⟩ := hl
      rw [List.mem_map] at hal
      obtain ⟨m, -, hm⟩ := hal
      exact commitId_ne_codeId _ _ _ hm.symm

end RepoAnalyzer

/-- C10: document ids are unique — for every repo_data the list of ids
`process_and_store` builds (`commit_i` for commits, `pr_i` for pull
requests, `code_k_j` for code chunks) is pairwise distinct, so no
document handed to the vector store shares an id with another. -/
theorem document_ids_pairwise_distinct (rd : RepoAnalyzer.RepoData) :
    ((RepoAnalyzer.buildEntries rd).map RepoAnalyzer.Entry.id).Pairwise
      (fun a b => a ≠ b) :=
  RepoAnalyzer.buildEntries_ids_nodup rd

namespace RepoAnalyzer

/-! ## src/agent.py — the tool-calling loop

The hosted LLM is an oracle `chat : List Msg → ModelResponse` (the same
oracle serves the tool-enabled and the follow-up synthesis/enhancement
calls; it is quantified over, so any behaviour is covered).  Exceptions
of the HTTP client are not modelled: the oracle is total.  The
`iterations` and `exit` fields of the result are instrumentation for the
statements; the Python function returns only the answer string. -/

/-- One `chat.completions.create` response (`finish_reason`,
`message.content`, `message.tool_calls`). -/
structure ModelResponse where
  finishReason : String
  content : Option String
  toolCalls : List ToolCall

/-- Python `x or default` on an optional string: `None` and `""` are
both falsy. -/
def pyOrElse (c : Option String) (dflt : String) : String :=
  match c with
  | none => dflt
  | some s => if s = "" then dflt else s

/-- `RepoAgent._truncate_tool_result`. -/
def truncate_tool_result (result : String) (max_toks : Nat) : String :=
  let max_chars := max_toks * 4
  if result.length ≤ max_chars then result
  else String.mk (result.data.take max_chars) ++
    "\n\n[... Result truncated due to length ...]"

/-- The `analytical_phrases` list of `_needs_enhancement`. -/
def analyticalPhrases : List String :=
  ["suggests that", "indicates", "implies", "pattern",
   "trend", "notably", "interesting", "significant",
   "architecture", "design decision", "approach",
   "insight", "observation", "implication"]

/-- Python `str.lower()` on one character (ASCII case mapping; the
phrases compared against are all ASCII). -/
def pyLowerChar (c : Char) : Char :=
  if 'A' ≤ c ∧ c ≤ 'Z' then Char.ofNat (c.toNat + 32) else c

/-- Python `s.lower()`. -/
def pyLower (s : String) : String :=
  String.mk (s.data.map pyLowerChar)

/-- `RepoAgent._needs_enhancement`: fewer than 3 analytical phrases. -/
def needs_enhancement (content : String) : Bool :=
  if content = "" then false
  else (analyticalPhrases.filter
    (fun phrase => containsSeq (pyLower phrase).data (pyLower content).data)).length < 3

/-- The system message content set in `RepoAgent.__init__`. -/
def systemPrompt : String :=
  "You are an expert software repository analyst with deep experience in software architecture, development patterns, and team dynamics.\n\nWhen analyzing repositories, you should:\n- Provide insights and interpretations, not just raw facts\n- Identify patterns, trends, and their implications\n- Make informed inferences about code quality, architecture decisions, and development practices\n- Connect different pieces of information to tell a coherent story\n- Highlight both strengths and potential areas of concern\n- Consider the \"why\" behind changes, not just the \"what\"\n- Use analogies and comparisons when they help understanding\n- Point out interesting observations that might not be immediately obvious\n- Assess team dynamics, collaboration patterns, and code ownership\n- Comment on development practices (testing, documentation, commit discipline)\n- Note architectural decisions and their potential impact\n\nThink like a senior engineer reviewing a codebase for the first time - be analytical, insightful, and helpful. Your goal is to help users deeply understand the repository\x27s history, architecture, and evolution.\n\nWhen you have gathered information from tools, synthesize it into a comprehensive narrative rather than just listing facts.\n\nIMPORTANT: You maintain conversation history. When users ask follow-up questions:\n- Reference previous exchanges naturally\n- Build upon earlier analysis\n- Connect new findings to previous discussions\n- Maintain context across the conversation"

/-- The synthesis request appended when the model stops after having
made at least 2 tool calls. -/
def synthesisPrompt : String :=
  "Now provide a comprehensive, insightful analysis based on everything you\x27ve learned.\n\nStructure your response to:\n1. Start with a clear summary of key findings\n2. Provide detailed insights with supporting evidence from the data\n3. Make connections between different aspects (code, PRs, commits, timeline)\n4. Highlight interesting patterns, trends, or notable observations\n5. Discuss architectural decisions or development practices you observe\n6. Offer practical implications or recommendations where appropriate\n7. Note any concerns, risks, or areas worth investigating further\n\nBe thorough, analytical, and insightful. Help the reader truly understand this repository."

/-- The enhancement request appended when the answer looks too factual. -/
def enhancementPrompt : String :=
  "Please enhance your analysis with:\n1. Key insights and patterns you observe in the data\n2. What these findings imply about the repository\x27s development\n3. Notable observations or potential concerns\n4. Connections between different pieces of information\n5. Your assessment of development practices, architecture, or team dynamics\n\nMake your response more analytical, insightful, and less purely factual. Think like a senior engineer doing a code review."

/-- The fixed sentinel returned when the loop gives up. -/
def maxIterSentinel : String := "Maximum iterations reached without final answer."

/-- How the loop ended (instrumentation). -/
inductive LoopExit where
  | stopped
  | capped
  | broke
deriving DecidableEq, Repr

/-- The loop's outcome: the returned string plus instrumentation. -/
structure LoopResult where
  answer : String
  iterations : Nat
  exit : LoopExit
deriving Repr

/-- `self.system_message`. -/
def systemMessage : Msg := { role := "system", content := .str systemPrompt }

/-- The `while iteration < max_iterations` loop of `query_with_history`,
by remaining fuel.  Each entry: trim when over budget, consult the
model, append the assistant message; on `"stop"` answer (through the
synthesis or enhancement follow-up call when applicable), on
`"tool_calls"` with a non-empty list execute the tools, append their
truncated results and continue; otherwise break.  Falling out of the
loop yields the sentinel. -/
def queryLoop (chat : List Msg → ModelResponse) (exec : ToolCall → String) :
    Nat → List Msg → Nat → Nat → LoopResult
  | 0, _, _, iters =>
    { answer := maxIterSentinel, iterations := iters, exit := .capped }
  | fuel + 1, messages, toolCallsMade, iters =>
    let messages1 :=
      if count_tokens messages > agentMaxTokens then
        trim_conversation_history messages
      else messages
    let resp := chat messages1
    let assistantMsg : Msg :=
      { role := "assistant",
        content := (match resp.content with
          | some s => MsgContent.str s
          | none => MsgContent.nullContent),
        toolCalls := resp.toolCalls }
    let messages2 := messages1 ++ [assistantMsg]
    if resp.finishReason = "stop" then
      if toolCallsMade ≥ 2 then
        let messages3 := messages2 ++
          [{ role := "user", content := .str synthesisPrompt }]
        { answer := pyOrElse (chat messages3).content "No response generated.",
          iterations := iters + 1, exit := .stopped }
      else if needs_enhancement (pyOrElse resp.content "") then
        let messages3 := messages2 ++
          [{ role := "user", content := .str enhancementPrompt }]
        { answer := pyOrElse (chat messages3).content "No response generated.",
          iterations := iters + 1, exit := .stopped }
      else
        { answer := pyOrElse resp.content "No response generated.",
          iterations := iters + 1, exit := .stopped }
    else if resp.finishReason = "tool_calls" ∧ resp.toolCalls ≠ [] then
      let messages3 := messages2 ++ resp.toolCalls.map (fun tc =>
        { role := "tool",
          content := .str (truncate_tool_result (exec tc) 15000),
          toolCallId := tc.id, fname := tc.fname })
      queryLoop chat exec fuel messages3
        (toolCallsMade + resp.toolCalls.length) (iters + 1)
    else
      { answer := maxIterSentinel, iterations := iters + 1, exit := .broke }

/-- `RepoAgent.query_with_history` (Python default
`max_iterations = 10`). -/
def query_with_history (chat : List Msg → ModelResponse)
    (exec : ToolCall → String) (question : String)
    (conversation_history : List Msg) (max_iterations : Nat) : LoopResult :=
  let messages := [systemMessage] ++ conversation_history ++
    [{ role := "user", content := .str question }]
  queryLoop chat exec max_iterations messages 0 0

theorem queryLoop_spec (chat : List Msg → ModelResponse)
    (exec : ToolCall → String) :
    ∀ fuel messages tcm iters,
      ((queryLoop chat exec fuel messages tcm iters).iterations ≤ iters + fuel) ∧
      ((queryLoop chat exec fuel messages tcm iters).exit = .stopped →
        ∃ ms, (queryLoop chat exec fuel messages tcm iters).answer =
          pyOrElse (chat ms).content "No response generated.") ∧
      ((queryLoop chat exec fuel messages tcm iters).exit = .capped →
        (queryLoop chat exec fuel messages tcm iters).answer = maxIterSentinel) := by
  intro fuel
  induction fuel with
  | zero =>
    intro messages tcm iters
    refine ⟨by simp [queryLoop], by simp [queryLoop], by simp [queryLoop]⟩
  | succ fuel ih =>
    intro messages tcm iters
    rw [queryLoop]
    dsimp only
    repeat' split
    all_goals
      first
        | exact ⟨by simp <;> omega, fun _ => ⟨_, rfl⟩, by intro h; simp at h⟩
        | (refine ⟨?_, (ih _ _ (iters + 1)).2.1, (ih _ _ (iters + 1)).2.2⟩;
           exact le_trans (ih _ _ (iters + 1)).1 (by omega))
        | exact ⟨by simp <;> omega, by intro h; simp at h, by intro h; simp at h⟩

end RepoAnalyzer

/-- C2: for every oracle behaviour, tool implementation, question,
history, and `max_iterations` value n, `query_with_history` executes at
most n iterations of the tool-calling loop and always returns a string:
when the model stops the answer is a model-produced final answer (the
content of one of the oracle's responses, or the fixed fallback
`"No response generated."` when that content is empty), and when the
iteration cap is hit without a final answer it is the fixed sentinel
`"Maximum iterations reached without final answer."`. -/
theorem query_with_history_bounded (chat : List RepoAnalyzer.Msg → RepoAnalyzer.ModelResponse)
    (exec : RepoAnalyzer.ToolCall → String) (question : String)
    (history : List RepoAnalyzer.Msg) (n : Nat) :
    ((RepoAnalyzer.query_with_history chat exec question history n).iterations ≤ n) ∧
    ((RepoAnalyzer.query_with_history chat exec question history n).exit =
        RepoAnalyzer.LoopExit.stopped →
      ∃ ms, (RepoAnalyzer.query_with_history chat exec question history n).answer =
        RepoAnalyzer.pyOrElse (chat ms).content "No response generated.") ∧
    ((RepoAnalyzer.query_with_history chat exec question history n).exit =
        RepoAnalyzer.LoopExit.capped →
      (RepoAnalyzer.query_with_history chat exec question history n).answer =
        RepoAnalyzer.maxIterSentinel) := by
  have h := RepoAnalyzer.queryLoop_spec chat exec n
    ([RepoAnalyzer.systemMessage] ++ history ++
      [{ role := "user", content := .str question }]) 0 0
  refine ⟨?_, h.2.1, h.2.2⟩
  have h1 := h.1
  have h2 : (RepoAnalyzer.query_with_history chat exec question history n).iterations =
      (RepoAnalyzer.queryLoop chat exec n
        ([RepoAnalyzer.systemMessage] ++ history ++
          [{ role := "user", content := .str question }]) 0 0).iterations := rfl
  rw [h2]
  omega

namespace RepoAnalyzer

/-- An oracle that immediately stops with a final answer. -/
def stopChat : List Msg → ModelResponse :=
  fun _ => { finishReason := "stop", content := some "done", toolCalls := [] }

/-- A trivial tool implementation. -/
def constExec : ToolCall → String := fun _ => ""

end RepoAnalyzer

/-- Witness for C2: with an oracle that stops at once, 3 allowed
iterations use at most 3, and the answer is a model content. -/
theorem query_with_history_bounded_witness :
    ((RepoAnalyzer.query_with_history RepoAnalyzer.stopChat RepoAnalyzer.constExec
        "q" [] 3).iterations ≤ 3) ∧
    ∃ ms, (RepoAnalyzer.query_with_history RepoAnalyzer.stopChat RepoAnalyzer.constExec
        "q" [] 3).answer =
      RepoAnalyzer.pyOrElse (RepoAnalyzer.stopChat ms).content "No response generated." := by
  have h := query_with_history_bounded RepoAnalyzer.stopChat RepoAnalyzer.constExec
    "q" [] 3
  exact ⟨h.1, h.2.1 (by decide)⟩
